import Mathlib

/-!
Verification of the density gate `density2d` from `fc/gate.py` (FlowCal).

The pipeline is embedded shallowly:
* events are rows of rationals (`Row`); floating-point values are idealized
  as exact rationals;
* `np.histogram2d` is modelled by `hist` via the bin-index function `binIdx`
  (half-open bins, last bin closed on both ends, out-of-range values dropped),
  with the single `bins` edge array shared by both axes as in the source;
* `scipy.ndimage.filters.gaussian_filter` is an external library call whose
  Gaussian weights are transcendental, so the smoother `sepBlur` keeps the
  structure (separable correlation with zero padding over a finite radius)
  and takes the 1D weight function as a parameter;
* `sorted(xrange(len(vD)), key=..., reverse=True)` is Python's stable sort on
  the ascending list `0, 1, ...`; its result is the unique list sorted by the
  total order "density strictly greater, or equal density and smaller index"
  (`RankLe`), computed here by insertion sort (see `ranking_eq_mergeSort`:
  the choice of sorting algorithm does not matter);
* `np.cumsum` / `np.nonzero(..)[0][0]` become `cumList` / `List.findIdx?`
  (the `[0]` on an empty index array is an `IndexError`);
* `np.unravel_index` with C order on an `m × m` grid is `unravel`;
* the gating mask `tuple(event) in accepted` compares the raw channel value
  pair with integer bin-index pairs under Python's numeric equality, embedded
  as equality with the cast pair in `rowAccepted`;
* the two `assert` statements surface as `GateError.assertionError`;
* division by zero (an all-zero histogram, NaN field in numpy) is idealized
  as rational division by zero; no result downstream of it depends on the
  density values in that case.
-/

namespace FlowCal

/- Batteries marks the rational-number operations irreducible, which blocks
the evaluation of concrete instances by `decide`; restore the default
reducibility for this development. -/
attribute [local semireducible] Rat.mul Rat.add Rat.sub Rat.inv

/-- Row of channel readings for one event (one row of the `data` array). -/
abbrev Row := List ℚ

/-- Number of bins described by an edge list (numpy: `len(bins) - 1`). -/
def nBins (edges : List ℚ) : ℕ := edges.length - 1

/-- Bin index of a value for `np.histogram2d` edge semantics: bin `i` is
`[e_i, e_{i+1})` for `i < m - 1` and the last bin is `[e_{m-1}, e_m]`;
values outside `[e_0, e_m]` are dropped. -/
def binIdx (edges : List ℚ) (v : ℚ) : Option ℕ :=
  let m := nBins edges
  if m = 0 then none
  else if v < edges.headD 0 then none
  else if edges.getLastD 0 < v then none
  else some (min ((List.range m).findIdx (fun i => decide (v < edges.getD (i+1) 0))) (m - 1))

/-- The two channel values of a row selected by `data[:, channels]` for a
two-element channel list. -/
def chPair (channels : List ℕ) (row : Row) : ℚ × ℚ :=
  (row.getD (channels.getD 0 0) 0, row.getD (channels.getD 1 0) 0)

/-- Joint bin coordinate of a row: both channel values binned with the same
edge array, as `np.histogram2d` does. -/
def binPair (edges : List ℚ) (channels : List ℕ) (row : Row) : Option (ℕ × ℕ) :=
  match binIdx edges (chPair channels row).1, binIdx edges (chPair channels row).2 with
  | some i, some j => some (i, j)
  | _, _ => none

/-- Cell `(i, j)` of the 2D histogram `H` of `np.histogram2d`. -/
def hist (edges : List ℚ) (channels : List ℕ) (data : List Row) (i j : ℕ) : ℕ :=
  data.countP (fun row => decide (binPair edges channels row = some (i, j)))

/-- Integer offsets `-r, ..., r` covered by a truncated 1D kernel. -/
def offsets (r : ℕ) : List ℤ :=
  (List.range (2 * r + 1)).map (fun t => (t : ℤ) - (r : ℤ))

/-- Zero padding outside the `m × m` grid (`mode='constant', cval=0.0`). -/
def padded (m : ℕ) (g : ℕ → ℕ → ℚ) (i j : ℤ) : ℚ :=
  if 0 ≤ i ∧ i < (m : ℤ) ∧ 0 ≤ j ∧ j < (m : ℤ) then g i.toNat j.toNat else 0

/-- Modelled from the spec: `scipy.ndimage.filters.gaussian_filter` (an
external library call, not code of this repository) is a separable
correlation — a 1D kernel applied along each axis — with zero padding and a
kernel truncated at a finite radius.  The Gaussian weights
`exp(-d^2 / (2 sigma^2))` are transcendental, so the 1D weight function `w`
and the radius `r` are parameters of the model; every theorem below holds
for an arbitrary kernel. -/
def sepBlur (r : ℕ) (w : ℤ → ℚ) (m : ℕ) (g : ℕ → ℕ → ℚ) (i j : ℕ) : ℚ :=
  ((offsets r).map (fun d1 =>
    ((offsets r).map (fun d2 =>
      w d1 * w d2 * padded m g ((i : ℤ) - d1) ((j : ℤ) - d2))).sum)).sum

/-- Sum of all cells of an `m × m` rational grid (`np.sum`). -/
def totalMass (m : ℕ) (b : ℕ → ℕ → ℚ) : ℚ :=
  ((List.range m).map (fun i => ((List.range m).map (fun j => b i j)).sum)).sum

/-- Histogram grid as a rational-valued function. -/
def histF (edges : List ℚ) (channels : List ℕ) (data : List Row) : ℕ → ℕ → ℚ :=
  fun i j => (hist edges channels data i j : ℚ)

/-- Blurred histogram `bH`. -/
def blurH (r : ℕ) (w : ℤ → ℚ) (data : List Row) (channels : List ℕ)
    (edges : List ℚ) : ℕ → ℕ → ℚ :=
  sepBlur r w (nBins edges) (histF edges channels data)

/-- Normalized density field `D = bH / np.sum(bH)`.  (For an all-zero
histogram numpy produces NaN here; the model's rational division returns 0,
and no theorem about that case depends on these values.) -/
def densityF (r : ℕ) (w : ℤ → ℚ) (data : List Row) (channels : List ℕ)
    (edges : List ℚ) (i j : ℕ) : ℚ :=
  blurH r w data channels edges i j
    / totalMass (nBins edges) (blurH r w data channels edges)

/-- C-order `np.unravel_index` on an `m × m` grid. -/
def unravel (m idx : ℕ) : ℕ × ℕ := (idx / m, idx % m)

/-- Linearized density field `vD = D.ravel()` (C order). -/
def vecD (r : ℕ) (w : ℤ → ℚ) (data : List Row) (channels : List ℕ)
    (edges : List ℚ) (idx : ℕ) : ℚ :=
  densityF r w data channels edges (idx / nBins edges) (idx % nBins edges)

/-- Linearized raw histogram `vH = H.ravel()` (C order). -/
def vecH (edges : List ℚ) (channels : List ℕ) (data : List Row) (idx : ℕ) : ℕ :=
  hist edges channels data (idx / nBins edges) (idx % nBins edges)

/-- Order realizing Python's stable descending sort of `0, 1, ...` by key
`vD`: `a` comes before `b` when its density is strictly larger, or the
densities are equal and `a` keeps its smaller original position.  On the
duplicate-free ascending list `0, 1, ..., len-1` a stable sort by
descending key produces exactly the permutation sorted by this total
order. -/
def RankLe (vD : ℕ → ℚ) (a b : ℕ) : Prop :=
  vD b < vD a ∨ (vD a = vD b ∧ a ≤ b)

instance (vD : ℕ → ℚ) : DecidableRel (RankLe vD) := fun a b =>
  inferInstanceAs (Decidable (vD b < vD a ∨ (vD a = vD b ∧ a ≤ b)))

instance (vD : ℕ → ℚ) : IsTrans ℕ (RankLe vD) := by
  constructor
  intro a b c hab hbc
  rcases hab with h1 | ⟨h1, h1'⟩ <;> rcases hbc with h2 | ⟨h2, h2'⟩
  · exact Or.inl (h2.trans h1)
  · exact Or.inl (h2 ▸ h1)
  · exact Or.inl (h1 ▸ h2)
  · exact Or.inr ⟨h1.trans h2, h1'.trans h2'⟩

instance (vD : ℕ → ℚ) : IsTotal ℕ (RankLe vD) := by
  constructor
  intro a b
  rcases lt_trichotomy (vD a) (vD b) with h | h | h
  · exact Or.inr (Or.inl h)
  · rcases Nat.le_total a b with hn | hn
    · exact Or.inl (Or.inr ⟨h, hn⟩)
    · exact Or.inr (Or.inr ⟨h.symm, hn⟩)
  · exact Or.inl (Or.inl h)

instance (vD : ℕ → ℚ) : IsAntisymm ℕ (RankLe vD) := by
  constructor
  intro a b hab hba
  rcases hab with h1 | ⟨h1, h1'⟩ <;> rcases hba with h2 | ⟨h2, h2'⟩
  · exact absurd (h1.trans h2) (lt_irrefl _)
  · exact absurd h1 (h2 ▸ lt_irrefl _)
  · exact absurd h2 (h1 ▸ lt_irrefl _)
  · exact Nat.le_antisymm h1' h2'

/-- CellRanking: `sorted(xrange(len(vD)), key=lambda idx: vD[idx],
reverse=True)`.  Python's sort is stable, and on the duplicate-free
ascending input this is the unique `RankLe`-sorted permutation of
`0, ..., len-1`; it is computed here by insertion sort, and
`ranking_eq_mergeSort` below shows that any other sorting algorithm
produces the same list. -/
def ranking (len : ℕ) (vD : ℕ → ℚ) : List ℕ :=
  (List.range len).insertionSort (RankLe vD)

/-- CellRanking `sidx` of the density gate. -/
def cellRanking (r : ℕ) (w : ℤ → ℚ) (data : List Row) (channels : List ℕ)
    (edges : List ℚ) : List ℕ :=
  ranking (nBins edges * nBins edges) (vecD r w data channels edges)

/-- Entry `k` of the running cumulative sum `csvH = np.cumsum(vH[sidx])`. -/
def cumAt (r : ℕ) (w : ℤ → ℚ) (data : List Row) (channels : List ℕ)
    (edges : List ℚ) (k : ℕ) : ℕ :=
  (((cellRanking r w data channels edges).take (k + 1)).map
    (vecH edges channels data)).sum

/-- The cumulative-sum array `csvH` as a list. -/
def cumList (r : ℕ) (w : ℤ → ℚ) (data : List Row) (channels : List ℕ)
    (edges : List ℚ) : List ℕ :=
  (List.range (nBins edges * nBins edges)).map (cumAt r w data channels edges)

/-- Target number of points to keep: `n = int(np.ceil(gate_fraction * N))`. -/
def targetN (f : ℚ) (N : ℕ) : ℤ := Int.ceil (f * (N : ℚ))

/-- Index `Nidx = np.nonzero(csvH >= n)[0][0]`: the position of the first
cumulative sum reaching the target, if any. -/
def selIdx (r : ℕ) (w : ℤ → ℚ) (data : List Row) (channels : List ℕ)
    (edges : List ℚ) (f : ℚ) : Option ℕ :=
  (cumList r w data channels edges).findIdx?
    (fun c : ℕ => decide (targetN f data.length ≤ (c : ℤ)))

/-- AcceptedCellSet: 2D coordinates of `sidx[:(Nidx+1)]`
(`np.unravel_index(sidx[:(Nidx+1)], H.shape)`). -/
def acceptedCells (r : ℕ) (w : ℤ → ℚ) (data : List Row) (channels : List ℕ)
    (edges : List ℚ) (k : ℕ) : List (ℕ × ℕ) :=
  ((cellRanking r w data channels edges).take (k + 1)).map (unravel (nBins edges))

/-- Gating mask entry for one event: `tuple(event) in accepted`.  Python's
set membership compares the raw (float) channel values with the integer
index pairs by numeric equality, embedded here as equality with the cast
pair.  Note this is not a re-binning of the event. -/
def rowAccepted (channels : List ℕ) (acc : List (ℕ × ℕ)) (row : Row) : Bool :=
  acc.any (fun c => decide (chPair channels row = ((c.1 : ℚ), (c.2 : ℚ))))

/-- Coordinate axis used for the contour trace:
`np.mgrid[s_ind:e_ind]` with `s_ind = np.ceil(bins[0])`,
`e_ind = np.ceil(bins[-1])` — integer steps from the ceiling of the first
edge up to, excluding, the ceiling of the last edge. -/
def contourAxis (edges : List ℚ) : List ℤ :=
  let s : ℤ := Int.ceil (edges.headD 0)
  let e : ℤ := Int.ceil (edges.getLastD 0)
  (List.range (e - s).toNat).map (fun k : ℕ => s + (k : ℤ))

/-- Contour-grid axis as the specification's words describe it: integer
steps from the floor of the first bin edge to the ceiling of the last bin
edge.  Kept only to compare with `contourAxis`, which follows the source. -/
def contourAxisSpec (edges : List ℚ) : List ℤ :=
  let s : ℤ := Int.floor (edges.headD 0)
  let e : ℤ := Int.ceil (edges.getLastD 0)
  (List.range (e - s).toNat).map (fun k : ℕ => s + (k : ℤ))

/-- Failures the source can raise on the modelled path: the two `assert`
statements, and the `IndexError` from `np.nonzero(csvH >= n)[0][0]` when no
cumulative sum reaches the target.  The error kinds named by the
specification (`InvalidInput`, `EmptyDistribution`, ...) do not occur in the
source. -/
inductive GateError where
  | assertionError : GateError
  | indexError : GateError
deriving DecidableEq

/-- Result of a successful `density2d` call: the gated rows, the accepted
cell coordinates, the density level passed to the contour trace
(`vD[sidx[Nidx]]`), and the integer coordinate axis of the contour grid. -/
structure GateResult where
  gated : List Row
  accepted : List (ℕ × ℕ)
  contourLevel : ℚ
  gridAxis : List ℤ
deriving DecidableEq

instance : DecidableEq (Except GateError GateResult) := fun a b =>
  match a, b with
  | .ok x, .ok y =>
    if h : x = y then .isTrue (by rw [h]) else .isFalse (fun hc => h (Except.ok.inj hc))
  | .ok _, .error _ => .isFalse (fun hc => Except.noConfusion hc)
  | .error _, .ok _ => .isFalse (fun hc => Except.noConfusion hc)
  | .error e1, .error e2 =>
    if h : e1 = e2 then .isTrue (by rw [h]) else .isFalse (fun hc => h (Except.error.inj hc))

/-- The `density2d` gate of `fc/gate.py`, for a kernel radius `r` and 1D
kernel weights `w` standing in for the truncated Gaussian. -/
def density2dModel (r : ℕ) (w : ℤ → ℚ) (data : List Row) (channels : List ℕ)
    (edges : List ℚ) (f : ℚ) : Except GateError GateResult :=
  if channels.length ≠ 2 then .error .assertionError
  else if data.length < 2 then .error .assertionError
  else
    match selIdx r w data channels edges f with
    | none => .error .indexError
    | some k =>
      let acc := acceptedCells r w data channels edges k
      .ok ⟨data.filter (rowAccepted channels acc), acc,
           vecD r w data channels edges
             ((cellRanking r w data channels edges).getD k 0),
           contourAxis edges⟩

/-- Gated rows of a `density2d` outcome (empty list on failure). -/
def gatedOf (x : Except GateError GateResult) : List Row :=
  match x with
  | .ok res => res.gated
  | .error _ => []

/-- Accepted cells of a `density2d` outcome (empty list on failure). -/
def acceptedOf (x : Except GateError GateResult) : List (ℕ × ℕ) :=
  match x with
  | .ok res => res.accepted
  | .error _ => []

/-- Error of a `density2d` outcome, if it failed. -/
def errOf (x : Except GateError GateResult) : Option GateError :=
  match x with
  | .ok _ => none
  | .error e => some e

/-- Contour-grid axis of a `density2d` outcome (empty list on failure). -/
def axisOf (x : Except GateError GateResult) : List ℤ :=
  match x with
  | .ok res => res.gridAxis
  | .error _ => []

/-- Concrete stand-in kernel used for witnesses and counterexamples: radius
one, center weight `1/2`, side weights `1/4` (a symmetric nonnegative kernel
of total mass one, like the truncated normalized Gaussian it replaces). -/
def testW : ℤ → ℚ := fun d => if d = 0 then 1/2 else if d = 1 ∨ d = -1 then 1/4 else 0

/-- Edge list of a small 2 × 2 grid (the default half-integer convention,
`np.arange(3) - 0.5`), used for concrete instances. -/
def edges3 : List ℚ := [-1/2, 1/2, 3/2]

/-! ### Properties of the stable descending sort -/

theorem ranking_perm (len : ℕ) (vD : ℕ → ℚ) :
    (ranking len vD).Perm (List.range len) :=
  List.perm_insertionSort _ _

theorem ranking_length (len : ℕ) (vD : ℕ → ℚ) : (ranking len vD).length = len := by
  rw [(ranking_perm len vD).length_eq, List.length_range]

theorem mem_ranking (len : ℕ) (vD : ℕ → ℚ) (a : ℕ) :
    a ∈ ranking len vD ↔ a < len := by
  rw [(ranking_perm len vD).mem_iff, List.mem_range]

theorem ranking_nodup (len : ℕ) (vD : ℕ → ℚ) : (ranking len vD).Nodup :=
  (ranking_perm len vD).symm.nodup (List.nodup_range len)

theorem ranking_pairwise (len : ℕ) (vD : ℕ → ℚ) :
    (ranking len vD).Pairwise (RankLe vD) :=
  List.sorted_insertionSort _ _

/-- The ranking does not depend on the sorting algorithm: `RankLe vD` is a
total order, so the sorted permutation of `0, ..., len-1` is unique, and
insertion sort and merge sort agree on it. -/
theorem ranking_eq_mergeSort (len : ℕ) (vD : ℕ → ℚ) :
    ranking len vD
      = (List.range len).mergeSort (fun a b => decide (RankLe vD a b)) := by
  apply List.eq_of_perm_of_sorted
    ((ranking_perm len vD).trans (List.mergeSort_perm (List.range len) _).symm)
    (ranking_pairwise len vD)
  have h := @List.sorted_mergeSort ℕ (fun a b => decide (RankLe vD a b))
    (fun a b c hab hbc => decide_eq_true
      (Trans.trans (of_decide_eq_true hab) (of_decide_eq_true hbc)))
    (fun a b => by
      rcases @IsTotal.total ℕ (RankLe vD) _ a b with h | h <;>
        simp [h])
    (List.range len)
  exact h.imp (fun hab => of_decide_eq_true hab)

/-! ### Characterization of the selection index -/

theorem selIdx_eq_some_iff (r : ℕ) (w : ℤ → ℚ) (data : List Row) (channels : List ℕ)
    (edges : List ℚ) (f : ℚ) (k : ℕ) :
    selIdx r w data channels edges f = some k ↔
      k < nBins edges * nBins edges ∧
      targetN f data.length ≤ (cumAt r w data channels edges k : ℤ) ∧
      ∀ j < k, (cumAt r w data channels edges j : ℤ) < targetN f data.length := by
  unfold selIdx cumList
  rw [List.findIdx?_eq_some_iff_getElem]
  constructor
  · rintro ⟨h, hp, hj⟩
    rw [List.length_map, List.length_range] at h
    refine ⟨h, ?_, ?_⟩
    · simpa using hp
    · intro j hj'
      have := hj j hj'
      simp only [List.getElem_map, List.getElem_range, decide_eq_true_eq] at this
      omega
  · rintro ⟨h, hp, hj⟩
    refine ⟨by simpa using h, by simpa using hp, ?_⟩
    intro j hj'
    have := hj j hj'
    simp only [List.getElem_map, List.getElem_range, decide_eq_true_eq]
    omega

theorem selIdx_eq_none_iff (r : ℕ) (w : ℤ → ℚ) (data : List Row) (channels : List ℕ)
    (edges : List ℚ) (f : ℚ) :
    selIdx r w data channels edges f = none ↔
      ∀ k < nBins edges * nBins edges,
        (cumAt r w data channels edges k : ℤ) < targetN f data.length := by
  unfold selIdx cumList
  rw [List.findIdx?_eq_none_iff]
  constructor
  · intro h k hk
    have := h (cumAt r w data channels edges k)
      (List.mem_map_of_mem _ (List.mem_range.mpr hk))
    simp only [decide_eq_false_iff_not, not_le] at this
    exact this
  · intro h x hx
    rcases List.mem_map.mp hx with ⟨k, hk, rfl⟩
    simp only [decide_eq_false_iff_not, not_le]
    exact h k (List.mem_range.mp hk)

/-! ### Inversion of the top-level gate -/

theorem density2dModel_ok_iff (r : ℕ) (w : ℤ → ℚ) (data : List Row) (channels : List ℕ)
    (edges : List ℚ) (f : ℚ) (res : GateResult) :
    density2dModel r w data channels edges f = .ok res ↔
      channels.length = 2 ∧ 2 ≤ data.length ∧
      ∃ k, selIdx r w data channels edges f = some k ∧
        res = ⟨data.filter (rowAccepted channels (acceptedCells r w data channels edges k)),
               acceptedCells r w data channels edges k,
               vecD r w data channels edges
                 ((cellRanking r w data channels edges).getD k 0),
               contourAxis edges⟩ := by
  unfold density2dModel
  rcases Decidable.em (channels.length = 2) with h1 | h1
  · rcases Decidable.em (data.length < 2) with h2 | h2
    · simp [h1, h2, Nat.not_le.mpr h2]
    · cases hsel : selIdx r w data channels edges f with
      | none => simp [h1, h2, hsel]
      | some k => simp [h1, h2, hsel, Nat.not_lt.mp h2, eq_comm]
  · simp [h1]

theorem density2dModel_eq_indexError (r : ℕ) (w : ℤ → ℚ) (data : List Row)
    (channels : List ℕ) (edges : List ℚ) (f : ℚ)
    (hch : channels.length = 2) (hN : 2 ≤ data.length)
    (hsel : selIdx r w data channels edges f = none) :
    density2dModel r w data channels edges f = .error .indexError := by
  unfold density2dModel
  simp [hch, hsel, Nat.not_lt.mpr hN]

/-! ### Counting points cell by cell -/

theorem countP_eq_sum_map_ite {α : Type} (p : α → Bool) (l : List α) :
    l.countP p = (l.map (fun a => if p a then 1 else 0)).sum := by
  induction l with
  | nil => simp
  | cons a t ih =>
    cases hpa : p a <;> simp [List.countP_cons, hpa, ih, Nat.add_comm]

theorem sum_map_sum_comm {α β : Type} (l1 : List α) (l2 : List β) (g : α → β → ℕ) :
    (l1.map (fun a => (l2.map (g a)).sum)).sum
      = (l2.map (fun b => (l1.map (fun a => g a b)).sum)).sum := by
  induction l1 with
  | nil => simp
  | cons a t ih => simp [ih, List.sum_map_add]

/-- Each row has at most one joint bin, so summing the per-cell counts of a
duplicate-free cell list counts every row at most once, and only rows that
satisfy any predicate implied by membership of their bin in the list. -/
theorem sum_cell_counts_le_countP {β : Type} [DecidableEq β]
    (data : List Row) (cs : List β) (hnd : cs.Nodup)
    (pb : Row → Option β) (q : Row → Bool)
    (hq : ∀ row ∈ data, ∀ c ∈ cs, pb row = some c → q row) :
    (cs.map (fun c => data.countP (fun row => decide (pb row = some c)))).sum
      ≤ data.countP q := by
  calc (cs.map (fun c => data.countP (fun row => decide (pb row = some c)))).sum
      = (cs.map (fun c =>
          (data.map (fun row => if pb row = some c then 1 else 0)).sum)).sum := by
        refine congrArg _ (List.map_congr_left fun c _ => ?_)
        rw [countP_eq_sum_map_ite]
        exact congrArg _ (List.map_congr_left fun row _ => by simp)
    _ = (data.map (fun row =>
          (cs.map (fun c => if pb row = some c then 1 else 0)).sum)).sum :=
        sum_map_sum_comm cs data _
    _ ≤ (data.map (fun row => if q row then 1 else 0)).sum := by
        apply List.sum_le_sum
        intro row hrow
        cases hpb : pb row with
        | none => simp [hpb]
        | some c0 =>
          have hsum : (cs.map (fun c => if some c0 = some c then 1 else 0)).sum
              = cs.countP (fun c => decide (c = c0)) := by
            rw [countP_eq_sum_map_ite]
            refine congrArg _ (List.map_congr_left fun c _ => ?_)
            simp [Option.some.injEq, eq_comm]
          rw [hsum]
          by_cases hc0 : c0 ∈ cs
          · have hq' : q row = true := hq row hrow c0 hc0 hpb
            have hcount : cs.countP (fun c => decide (c = c0)) = cs.count c0 := by
              rw [List.count_eq_countP]
              exact List.countP_congr (fun c _ => by simp)
            have := List.nodup_iff_count_le_one.mp hnd c0
            simp [hq', hcount]
            omega
          · have : cs.countP (fun c => decide (c = c0)) = 0 :=
              List.countP_eq_zero.mpr (fun c hc => by
                simp only [decide_eq_true_eq]
                rintro rfl
                exact hc0 hc)
            simp [this]
    _ = data.countP q := (countP_eq_sum_map_ite q data).symm

theorem take_subset_take {α : Type} {i j : ℕ} (h : i ≤ j) (l : List α) :
    l.take i ⊆ l.take j := by
  intro x hx
  have : l.take i = (l.take j).take i := by
    rw [List.take_take, Nat.min_eq_left h]
  rw [this] at hx
  exact List.take_subset i (l.take j) hx

theorem unravel_inj (m : ℕ) {a b : ℕ}
    (h : unravel m a = unravel m b) : a = b := by
  have h1 : a / m = b / m := congrArg Prod.fst h
  have h2 : a % m = b % m := congrArg Prod.snd h
  have ha := Nat.div_add_mod a m
  have hb := Nat.div_add_mod b m
  rw [h1] at ha
  omega

theorem cellRanking_eq (r : ℕ) (w : ℤ → ℚ) (data : List Row) (channels : List ℕ)
    (edges : List ℚ) :
    cellRanking r w data channels edges
      = ranking (nBins edges * nBins edges) (vecD r w data channels edges) := rfl

/-! ### Claim C1 -/

/-- C1: the claim is false of the code and the spec is the clear intent:
the gating mask is not a re-binning.  `tuple(event) in accepted` compares
the raw channel values with the accepted integer bin-index pairs, so at
fraction 1 the point `(1/5, 1/5)`, whose bin `(0, 0)` is accepted, is
nevertheless dropped from the gated output (only the integer-valued row
`[1, 1]` survives). -/
theorem claim_C1_gating_ignores_rebinning :
    binPair edges3 [0, 1] [1/5, 1/5] = some (0, 0) ∧
    (0, 0) ∈ acceptedOf (density2dModel 1 testW [[1/5, 1/5], [1, 1]] [0, 1] edges3 1) ∧
    gatedOf (density2dModel 1 testW [[1/5, 1/5], [1, 1]] [0, 1] edges3 1) = [[1, 1]] := by
  decide

/-! ### Claim C2 -/

/-- C2 counterexample: both points lie inside the bin-edge range, the target
count at fraction 1 is `⌈1·2⌉ = 2`, yet the gated output keeps fewer than 2
points, because the non-integer point `(3/10, 3/10)` can never equal an
integer bin-index pair. -/
theorem claim_C2_cex_in_range_points_lost :
    binPair edges3 [0, 1] [3/10, 3/10] = some (0, 0) ∧
    binPair edges3 [0, 1] [1, 1] = some (1, 1) ∧
    targetN 1 2 = 2 ∧
    (gatedOf (density2dModel 1 testW [[3/10, 3/10], [1, 1]] [0, 1] edges3 1)).length < 2 := by
  decide

/-- C2 amended: if, in addition, every point's channel-value pair coincides
numerically with its own bin coordinate (as integer-valued data does on the
default half-integer bin edges), then every successful gate keeps at least
`⌈gate_fraction · N⌉` points. -/
theorem claim_C2_amended_min_gated_count (r : ℕ) (w : ℤ → ℚ) (data : List Row)
    (channels : List ℕ) (edges : List ℚ) (f : ℚ) (res : GateResult)
    (halign : ∀ row ∈ data, ∃ c : ℕ × ℕ, binPair edges channels row = some c ∧
      chPair channels row = ((c.1 : ℚ), (c.2 : ℚ)))
    (h : density2dModel r w data channels edges f = .ok res) :
    targetN f data.length ≤ (res.gated.length : ℤ) := by
  rcases (density2dModel_ok_iff r w data channels edges f res).mp h with
    ⟨hch, hN, k, hk, hres⟩
  rcases (selIdx_eq_some_iff r w data channels edges f k).mp hk with ⟨hklt, hge, _⟩
  subst hres
  have key : cumAt r w data channels edges k
      ≤ (data.filter (rowAccepted channels (acceptedCells r w data channels edges k))).length := by
    rw [← List.countP_eq_length_filter]
    have hsum : cumAt r w data channels edges k
        = ((acceptedCells r w data channels edges k).map
            (fun c => data.countP (fun row =>
              decide (binPair edges channels row = some c)))).sum := by
      unfold cumAt acceptedCells
      rw [List.map_map]
      exact congrArg _ (List.map_congr_left fun idx _ => rfl)
    rw [hsum]
    apply sum_cell_counts_le_countP
    · unfold acceptedCells
      apply List.Nodup.map_on
      · intro x _ y _ hxy
        exact unravel_inj (nBins edges) hxy
      · exact (List.take_sublist _ _).nodup
          (cellRanking_eq r w data channels edges ▸ ranking_nodup _ _)
    · intro row hrow c hc hbp
      rcases halign row hrow with ⟨c', hc', hpair⟩
      rw [hbp] at hc'
      obtain rfl : c = c' := Option.some.inj hc'
      unfold rowAccepted
      exact List.any_eq_true.mpr ⟨c, hc, by rw [hpair]; exact decide_eq_true rfl⟩
  calc targetN f data.length
      ≤ (cumAt r w data channels edges k : ℤ) := hge
    _ ≤ _ := by exact_mod_cast key

/-- Witness for C2 (amended) at a concrete integer-valued input. -/
theorem claim_C2_amended_witness :
    (∀ row ∈ ([[0, 0], [1, 1]] : List Row), ∃ c : ℕ × ℕ,
      binPair edges3 [0, 1] row = some c ∧
      chPair [0, 1] row = ((c.1 : ℚ), (c.2 : ℚ))) ∧
    density2dModel 1 testW [[0, 0], [1, 1]] [0, 1] edges3 1
      = .ok ⟨[[0, 0], [1, 1]], [(0, 0), (1, 1)], 5/18, [0, 1]⟩ ∧
    targetN 1 ([[0, 0], [1, 1]] : List Row).length
      ≤ ((GateResult.mk [[0, 0], [1, 1]] [(0, 0), (1, 1)] (5/18) [0, 1]).gated.length : ℤ) := by
  have hal : ∀ row ∈ ([[0, 0], [1, 1]] : List Row), ∃ c : ℕ × ℕ,
      binPair edges3 [0, 1] row = some c ∧
      chPair [0, 1] row = ((c.1 : ℚ), (c.2 : ℚ)) := by
    intro row hrow
    simp only [List.mem_cons, List.not_mem_nil, or_false] at hrow
    rcases hrow with rfl | rfl
    · exact ⟨(0, 0), by decide, by decide⟩
    · exact ⟨(1, 1), by decide, by decide⟩
  exact ⟨hal, by decide,
    claim_C2_amended_min_gated_count 1 testW [[0, 0], [1, 1]] [0, 1] edges3 1
      ⟨[[0, 0], [1, 1]], [(0, 0), (1, 1)], 5/18, [0, 1]⟩ hal (by decide)⟩

/-! ### Claim C3 -/

/-- C3 counterexample: with every point outside the bin-edge range the code
does not fail with an `EmptyDistribution` error (no such error exists in the
source); normalization degenerates and the selection stage then fails with
the `IndexError` of `np.nonzero(csvH >= n)[0][0]` on an empty index array. -/
theorem claim_C3_cex_index_error_not_empty_distribution :
    errOf (density2dModel 1 testW [[5, 5], [7, 7]] [0, 1] edges3 (13/20))
      = some GateError.indexError := by
  decide

/-- C3 amended: for every valid-shaped input whose points all fall outside
the bin range (all-zero histogram) and positive fraction, `density2d` fails
with the selection-stage `IndexError`, not with `EmptyDistribution`. -/
theorem claim_C3_amended_all_zero_hist (r : ℕ) (w : ℤ → ℚ) (data : List Row)
    (channels : List ℕ) (edges : List ℚ) (f : ℚ)
    (hch : channels.length = 2) (hN : 2 ≤ data.length)
    (hout : ∀ row ∈ data, binPair edges channels row = none)
    (hf : 0 < f) :
    density2dModel r w data channels edges f = .error .indexError := by
  apply density2dModel_eq_indexError r w data channels edges f hch hN
  rw [selIdx_eq_none_iff]
  intro k _
  have hcum : cumAt r w data channels edges k = 0 := by
    unfold cumAt
    apply List.sum_eq_zero
    intro x hx
    rcases List.mem_map.mp hx with ⟨idx, _, rfl⟩
    unfold vecH hist
    rw [List.countP_eq_zero]
    intro row hrow
    simp [hout row hrow]
  rw [hcum]
  have hNpos : (0 : ℚ) < (data.length : ℚ) := by
    have : 0 < data.length := by omega
    exact_mod_cast this
  have : (0 : ℤ) < targetN f data.length :=
    Int.ceil_pos.mpr (mul_pos hf hNpos)
  simpa using this

/-- Witness for C3 (amended) at a concrete out-of-range input. -/
theorem claim_C3_amended_witness :
    binPair edges3 [0, 1] [5, 5] = none ∧
    binPair edges3 [0, 1] [9, 9] = none ∧
    density2dModel 1 testW [[5, 5], [9, 9]] [0, 1] edges3 (13/20)
      = .error .indexError := by
  refine ⟨by decide, by decide,
    claim_C3_amended_all_zero_hist 1 testW [[5, 5], [9, 9]] [0, 1] edges3 (13/20)
      (by decide) (by decide) ?_ (by decide)⟩
  intro row hrow
  simp only [List.mem_cons, List.not_mem_nil, or_false] at hrow
  rcases hrow with rfl | rfl
  · decide
  · decide

/-! ### Claim C4 -/

/-- C4 counterexample: `gate_fraction = 2` lies outside `(0, 1]`, so the
claim demands an input-validation failure, but the code performs no such
validation: the call passes both assertions and fails only later, in the
selection stage, with an `IndexError`. -/
theorem claim_C4_cex_fraction_not_validated :
    ¬ ((0 : ℚ) < 2 ∧ (2 : ℚ) ≤ 1) ∧
    density2dModel 1 testW [[0, 0], [1, 1]] [0, 1] edges3 2 ≠ .error .assertionError ∧
    density2dModel 1 testW [[0, 0], [1, 1]] [0, 1] edges3 2 = .error .indexError := by
  decide

/-- C4 amended: the input validation of `density2d` consists of exactly the
two assertions: an `AssertionError` is raised precisely when the channels
list does not have length 2 or the data has fewer than 2 events.  Bin edges,
sigma and gate_fraction are never validated. -/
theorem claim_C4_amended_assertions (r : ℕ) (w : ℤ → ℚ) (data : List Row)
    (channels : List ℕ) (edges : List ℚ) (f : ℚ) :
    density2dModel r w data channels edges f = .error .assertionError ↔
      (channels.length ≠ 2 ∨ data.length < 2) := by
  unfold density2dModel
  rcases Decidable.em (channels.length = 2) with h1 | h1
  · rcases Decidable.em (data.length < 2) with h2 | h2
    · simp [h1, h2]
    · cases hsel : selIdx r w data channels edges f with
      | none => simp [h1, h2, hsel]
      | some k => simp [h1, h2, hsel]
  · simp [h1]

/-! ### Claim C5 -/

/-- C5 counterexample: the contour grid axis of the source starts at the
ceiling of the first bin edge (`np.ceil(bins[0])`), not at its floor as the
claim states: at the default-style edges `[-1/2, 1/2, 3/2]` the code's axis
is `[0, 1]` while the claimed axis would be `[-1, 0, 1]`. -/
theorem claim_C5_cex_ceil_not_floor :
    axisOf (density2dModel 1 testW [[0, 0], [1, 1]] [0, 1] edges3 (1/2))
      ≠ contourAxisSpec edges3 ∧
    axisOf (density2dModel 1 testW [[0, 0], [1, 1]] [0, 1] edges3 (1/2)) = [0, 1] ∧
    contourAxisSpec edges3 = [-1, 0, 1] := by
  decide

/-- C5 amended: the contour tracer's grid axis runs in integer steps from
the ceiling of the first bin edge up to, excluding, the ceiling of the last
bin edge. -/
theorem claim_C5_amended_grid_axis (r : ℕ) (w : ℤ → ℚ) (data : List Row)
    (channels : List ℕ) (edges : List ℚ) (f : ℚ) (res : GateResult)
    (h : density2dModel r w data channels edges f = .ok res) :
    res.gridAxis.length
      = (Int.ceil (edges.getLastD 0) - Int.ceil (edges.headD 0)).toNat ∧
    ∀ t < res.gridAxis.length,
      res.gridAxis.getD t 0 = Int.ceil (edges.headD 0) + t := by
  rcases (density2dModel_ok_iff r w data channels edges f res).mp h with
    ⟨_, _, k, _, hres⟩
  subst hres
  constructor
  · simp [contourAxis]
  · intro t ht
    simp only [contourAxis] at ht ⊢
    rw [List.getD_eq_getElem _ _ (by simpa using ht)]
    simp

/-- Witness for C5 (amended) at a concrete input. -/
theorem claim_C5_amended_witness :
    density2dModel 1 testW [[0, 0], [1, 1]] [0, 1] edges3 1
      = .ok ⟨[[0, 0], [1, 1]], [(0, 0), (1, 1)], 5/18, [0, 1]⟩ ∧
    ((GateResult.mk [[0, 0], [1, 1]] [(0, 0), (1, 1)] (5/18) [0, 1]).gridAxis.length
      = (Int.ceil (edges3.getLastD 0) - Int.ceil (edges3.headD 0)).toNat ∧
    ∀ t < (GateResult.mk [[0, 0], [1, 1]] [(0, 0), (1, 1)] (5/18) [0, 1]).gridAxis.length,
      (GateResult.mk [[0, 0], [1, 1]] [(0, 0), (1, 1)] (5/18) [0, 1]).gridAxis.getD t 0
        = Int.ceil (edges3.headD 0) + t) :=
  ⟨by decide,
   claim_C5_amended_grid_axis 1 testW [[0, 0], [1, 1]] [0, 1] edges3 1
     ⟨[[0, 0], [1, 1]], [(0, 0), (1, 1)], 5/18, [0, 1]⟩ (by decide)⟩

/-! ### Claim C6 -/

/-- C6: the selector accepts exactly the cells `CellRanking[0..k]` where `k`
is the smallest index at which the running cumulative sum of the
density-ranked raw histogram counts reaches `⌈gate_fraction·N⌉`, and when no
such index exists the call fails (the uncaught `IndexError` of the empty
selection search) instead of returning a result. -/
theorem claim_C6_selector_prefix (r : ℕ) (w : ℤ → ℚ) (data : List Row)
    (channels : List ℕ) (edges : List ℚ) (f : ℚ)
    (hch : channels.length = 2) (hN : 2 ≤ data.length) :
    (∀ res, density2dModel r w data channels edges f = .ok res →
      ∃ k, targetN f data.length ≤ (cumAt r w data channels edges k : ℤ) ∧
        (∀ j < k, (cumAt r w data channels edges j : ℤ) < targetN f data.length) ∧
        res.accepted = ((cellRanking r w data channels edges).take (k + 1)).map
          (unravel (nBins edges))) ∧
    ((∀ k < nBins edges * nBins edges,
        (cumAt r w data channels edges k : ℤ) < targetN f data.length) →
      density2dModel r w data channels edges f = .error .indexError) := by
  constructor
  · intro res hres
    rcases (density2dModel_ok_iff r w data channels edges f res).mp hres with
      ⟨_, _, k, hk, hres'⟩
    rcases (selIdx_eq_some_iff r w data channels edges f k).mp hk with ⟨_, hge, hlt⟩
    refine ⟨k, hge, hlt, ?_⟩
    rw [hres']
    rfl
  · intro hall
    exact density2dModel_eq_indexError r w data channels edges f hch hN
      ((selIdx_eq_none_iff r w data channels edges f).mpr hall)

/-- Witness for C6 at a concrete input. -/
theorem claim_C6_selector_prefix_witness :
    ([0, 1] : List ℕ).length = 2 ∧ 2 ≤ ([[0, 0], [1, 1]] : List Row).length ∧
    ((∀ res, density2dModel 1 testW [[0, 0], [1, 1]] [0, 1] edges3 (1/2) = .ok res →
      ∃ k, targetN (1/2) ([[0, 0], [1, 1]] : List Row).length
          ≤ (cumAt 1 testW [[0, 0], [1, 1]] [0, 1] edges3 k : ℤ) ∧
        (∀ j < k, (cumAt 1 testW [[0, 0], [1, 1]] [0, 1] edges3 j : ℤ)
          < targetN (1/2) ([[0, 0], [1, 1]] : List Row).length) ∧
        res.accepted = ((cellRanking 1 testW [[0, 0], [1, 1]] [0, 1] edges3).take (k + 1)).map
          (unravel (nBins edges3))) ∧
    ((∀ k < nBins edges3 * nBins edges3,
        (cumAt 1 testW [[0, 0], [1, 1]] [0, 1] edges3 k : ℤ)
          < targetN (1/2) ([[0, 0], [1, 1]] : List Row).length) →
      density2dModel 1 testW [[0, 0], [1, 1]] [0, 1] edges3 (1/2) = .error .indexError)) :=
  ⟨by decide, by decide,
   claim_C6_selector_prefix 1 testW [[0, 0], [1, 1]] [0, 1] edges3 (1/2)
     (by decide) (by decide)⟩

/-! ### Claim C7 -/

/-- C7: the cell ranking used by the selector is a permutation of all
grid-cell linear indices, ordered by descending smoothed-density value, and
cells with equal density keep their original ascending linear-index order
(the stability of Python's `sorted`). -/
theorem claim_C7_ranking_stable_descending (r : ℕ) (w : ℤ → ℚ) (data : List Row)
    (channels : List ℕ) (edges : List ℚ) :
    (cellRanking r w data channels edges).Perm
      (List.range (nBins edges * nBins edges)) ∧
    (cellRanking r w data channels edges).Pairwise (fun a b =>
      vecD r w data channels edges b < vecD r w data channels edges a ∨
        (vecD r w data channels edges a = vecD r w data channels edges b ∧ a < b)) := by
  constructor
  · rw [cellRanking_eq]
    exact ranking_perm _ _
  · have hp := cellRanking_eq r w data channels edges ▸
      ranking_pairwise (nBins edges * nBins edges) (vecD r w data channels edges)
    have hn : (cellRanking r w data channels edges).Pairwise (fun a b => a ≠ b) :=
      cellRanking_eq r w data channels edges ▸
        ranking_nodup (nBins edges * nBins edges) (vecD r w data channels edges)
    refine (hp.and hn).imp ?_
    intro a b hab
    rcases hab with ⟨h1, hne⟩
    rcases (show vecD r w data channels edges b < vecD r w data channels edges a ∨
        (vecD r w data channels edges a = vecD r w data channels edges b ∧ a ≤ b)
      from h1) with hr | ⟨heq, hle⟩
    · exact Or.inl hr
    · exact Or.inr ⟨heq, lt_of_le_of_ne hle hne⟩

/-! ### Claim C8 -/

/-- C8: with the cloud, channels, bin edges and kernel held fixed, a larger
gate fraction never yields a smaller gated output. -/
theorem claim_C8_fraction_monotone (r : ℕ) (w : ℤ → ℚ) (data : List Row)
    (channels : List ℕ) (edges : List ℚ) (f1 f2 : ℚ) (res1 res2 : GateResult)
    (hf : f1 ≤ f2)
    (h1 : density2dModel r w data channels edges f1 = .ok res1)
    (h2 : density2dModel r w data channels edges f2 = .ok res2) :
    res1.gated.length ≤ res2.gated.length := by
  rcases (density2dModel_ok_iff r w data channels edges f1 res1).mp h1 with
    ⟨_, _, k1, hk1, e1⟩
  rcases (density2dModel_ok_iff r w data channels edges f2 res2).mp h2 with
    ⟨_, _, k2, hk2, e2⟩
  rcases (selIdx_eq_some_iff r w data channels edges f1 k1).mp hk1 with ⟨hk1lt, hge1, hlt1⟩
  rcases (selIdx_eq_some_iff r w data channels edges f2 k2).mp hk2 with ⟨hk2lt, hge2, hlt2⟩
  have hn : targetN f1 data.length ≤ targetN f2 data.length := by
    unfold targetN
    exact Int.ceil_mono (mul_le_mul_of_nonneg_right hf (Nat.cast_nonneg _))
  have hkk : k1 ≤ k2 := by
    by_contra hcon
    push_neg at hcon
    have hlt := hlt1 k2 hcon
    omega
  have main : (data.filter (rowAccepted channels
        (acceptedCells r w data channels edges k1))).length
      ≤ (data.filter (rowAccepted channels
        (acceptedCells r w data channels edges k2))).length := by
    rw [← List.countP_eq_length_filter, ← List.countP_eq_length_filter]
    apply List.countP_mono_left
    intro row _ hacc
    rcases List.any_eq_true.mp hacc with ⟨c, hc, hcp⟩
    refine List.any_eq_true.mpr ⟨c, ?_, hcp⟩
    unfold acceptedCells at hc ⊢
    rcases List.mem_map.mp hc with ⟨idx, hidx, rfl⟩
    exact List.mem_map_of_mem _ (take_subset_take (by omega) _ hidx)
  rw [e1, e2]
  exact main

/-- Witness for C8 at a concrete input and fractions `1/2 ≤ 1`. -/
theorem claim_C8_fraction_monotone_witness :
    ((1 : ℚ)/2 ≤ 1) ∧
    density2dModel 1 testW [[0, 0], [1, 1]] [0, 1] edges3 (1/2)
      = .ok ⟨[[0, 0]], [(0, 0)], 5/18, [0, 1]⟩ ∧
    density2dModel 1 testW [[0, 0], [1, 1]] [0, 1] edges3 1
      = .ok ⟨[[0, 0], [1, 1]], [(0, 0), (1, 1)], 5/18, [0, 1]⟩ ∧
    (GateResult.mk [[0, 0]] [(0, 0)] (5/18) [0, 1]).gated.length
      ≤ (GateResult.mk [[0, 0], [1, 1]] [(0, 0), (1, 1)] (5/18) [0, 1]).gated.length :=
  ⟨by decide, by decide, by decide,
   claim_C8_fraction_monotone 1 testW [[0, 0], [1, 1]] [0, 1] edges3 (1/2) 1
     ⟨[[0, 0]], [(0, 0)], 5/18, [0, 1]⟩
     ⟨[[0, 0], [1, 1]], [(0, 0), (1, 1)], 5/18, [0, 1]⟩
     (by decide) (by decide) (by decide)⟩

/-! ### Claim C9 -/

/-- C9: for every input the gated output is a subsequence of the input rows:
each returned point is a verbatim row, the original relative order is kept,
nothing is duplicated or modified, and the length can only shrink. -/
theorem claim_C9_gated_subsequence (r : ℕ) (w : ℤ → ℚ) (data : List Row)
    (channels : List ℕ) (edges : List ℚ) (f : ℚ) :
    (gatedOf (density2dModel r w data channels edges f)).Sublist data ∧
    (gatedOf (density2dModel r w data channels edges f)).length ≤ data.length := by
  cases hm : density2dModel r w data channels edges f with
  | error e =>
    simp only [gatedOf]
    exact ⟨List.nil_sublist data, Nat.zero_le _⟩
  | ok res =>
    rcases (density2dModel_ok_iff r w data channels edges f res).mp hm with
      ⟨_, _, k, _, hres⟩
    simp only [gatedOf]
    rw [hres]
    exact ⟨List.filter_sublist data, (List.filter_sublist data).length_le⟩

/-! ### Claim C10 -/

/-- C10: at `gate_fraction = 0` the input is not rejected: the target count
`⌈0·N⌉ = 0` is reached at the very first ranked cell, so exactly one cell —
the one of maximal smoothed density, with the smallest linear index among
ties — is accepted, and its density value is the contour level. -/
theorem claim_C10_zero_fraction_single_cell (r : ℕ) (w : ℤ → ℚ) (data : List Row)
    (channels : List ℕ) (edges : List ℚ)
    (hch : channels.length = 2) (hN : 2 ≤ data.length) (hedges : 2 ≤ edges.length) :
    ∃ res, density2dModel r w data channels edges 0 = .ok res ∧
      res.accepted
        = [unravel (nBins edges) ((cellRanking r w data channels edges).getD 0 0)] ∧
      res.contourLevel
        = vecD r w data channels edges ((cellRanking r w data channels edges).getD 0 0) ∧
      ∀ j < nBins edges * nBins edges,
        vecD r w data channels edges j
            < vecD r w data channels edges ((cellRanking r w data channels edges).getD 0 0) ∨
          (vecD r w data channels edges j
              = vecD r w data channels edges ((cellRanking r w data channels edges).getD 0 0) ∧
            (cellRanking r w data channels edges).getD 0 0 ≤ j) := by
  have hm : 0 < nBins edges := by
    unfold nBins
    omega
  have hmm : 0 < nBins edges * nBins edges := Nat.mul_pos hm hm
  have hzero : targetN 0 data.length = 0 := by
    unfold targetN
    simp
  have hsel : selIdx r w data channels edges 0 = some 0 := by
    rw [selIdx_eq_some_iff]
    refine ⟨hmm, ?_, ?_⟩
    · rw [hzero]
      exact Int.natCast_nonneg _
    · intro j hj
      omega
  have hlen : (cellRanking r w data channels edges).length
      = nBins edges * nBins edges := by
    rw [cellRanking_eq]
    exact ranking_length _ _
  obtain ⟨a, t, hat⟩ : ∃ a t, cellRanking r w data channels edges = a :: t := by
    cases hcr : cellRanking r w data channels edges with
    | nil =>
      rw [hcr] at hlen
      simp at hlen
      omega
    | cons a t => exact ⟨a, t, rfl⟩
  refine ⟨_, (density2dModel_ok_iff r w data channels edges 0 _).mpr
    ⟨hch, hN, 0, hsel, rfl⟩, ?_, ?_, ?_⟩
  · show acceptedCells r w data channels edges 0 = _
    unfold acceptedCells
    rw [hat]
    simp
  · rfl
  · intro j hj
    have hmem : j ∈ cellRanking r w data channels edges := by
      rw [cellRanking_eq, mem_ranking]
      exact hj
    have hgetD : (cellRanking r w data channels edges).getD 0 0 = a := by
      rw [hat]
      rfl
    rw [hgetD]
    rw [hat] at hmem
    rcases List.mem_cons.mp hmem with rfl | hmem'
    · exact Or.inr ⟨rfl, le_refl _⟩
    · have hpw := cellRanking_eq r w data channels edges ▸
        ranking_pairwise (nBins edges * nBins edges) (vecD r w data channels edges)
      rw [hat] at hpw
      have hrel := (List.pairwise_cons.mp hpw).1 j hmem'
      rcases (show vecD r w data channels edges j < vecD r w data channels edges a ∨
          (vecD r w data channels edges a = vecD r w data channels edges j ∧ a ≤ j)
        from hrel) with h | ⟨h, h'⟩
      · exact Or.inl h
      · exact Or.inr ⟨h.symm, h'⟩

/-- Witness for C10 at a concrete input. -/
theorem claim_C10_zero_fraction_witness :
    ([0, 1] : List ℕ).length = 2 ∧ 2 ≤ ([[0, 0], [1, 1]] : List Row).length ∧
    2 ≤ edges3.length ∧
    (∃ res, density2dModel 1 testW [[0, 0], [1, 1]] [0, 1] edges3 0 = .ok res ∧
      res.accepted = [unravel (nBins edges3)
        ((cellRanking 1 testW [[0, 0], [1, 1]] [0, 1] edges3).getD 0 0)] ∧
      res.contourLevel = vecD 1 testW [[0, 0], [1, 1]] [0, 1] edges3
        ((cellRanking 1 testW [[0, 0], [1, 1]] [0, 1] edges3).getD 0 0) ∧
      ∀ j < nBins edges3 * nBins edges3,
        vecD 1 testW [[0, 0], [1, 1]] [0, 1] edges3 j
            < vecD 1 testW [[0, 0], [1, 1]] [0, 1] edges3
              ((cellRanking 1 testW [[0, 0], [1, 1]] [0, 1] edges3).getD 0 0) ∨
          (vecD 1 testW [[0, 0], [1, 1]] [0, 1] edges3 j
              = vecD 1 testW [[0, 0], [1, 1]] [0, 1] edges3
                ((cellRanking 1 testW [[0, 0], [1, 1]] [0, 1] edges3).getD 0 0) ∧
            (cellRanking 1 testW [[0, 0], [1, 1]] [0, 1] edges3).getD 0 0 ≤ j)) :=
  ⟨by decide, by decide, by decide,
   claim_C10_zero_fraction_single_cell 1 testW [[0, 0], [1, 1]] [0, 1] edges3
     (by decide) (by decide) (by decide)⟩

end FlowCal
